import Mathlib

/-!
Verification of the lint extension (src/lint.ts).

The file shallowly embeds the state model of the extension: the
`lintState` field reducer, the `findDiagnostic` search, the panel
commands, the `RunLintPlugin` debounce scheduler and the `LintPanel`
list reconciler.  The document/decoration substrate (`DecorationSet`,
change position mapping) is an external collaborator; it is modelled by
sorted anchor lists and by the mapping functions a transaction carries,
following the contract stated in the specification (sections 3, 4.1
and 6).
-/

/-- Severity of a diagnostic (src/lint.ts line 16). -/
inductive Severity where
  | info
  | warning
  | error
  deriving DecidableEq, Repr

/-- A problem report (interface `Diagnostic`, src/lint.ts lines 8-26).
Positions are document offsets.  The source compares diagnostics by
object identity; the `ident` field models that identity, so distinct
diagnostic objects carry distinct `ident`s even when their text agrees.
UI action callbacks are not part of the state model. -/
structure Diagnostic where
  fromPos : Nat
  toPos : Nat
  severity : Severity
  source : Option String
  message : String
  ident : Nat
  deriving DecidableEq, Repr

/-- A decoration is either a mark over a range or a widget at a point
(src/lint.ts lines 71-81). -/
inductive AnchorKind where
  | mark
  | widget
  deriving DecidableEq, Repr

/-- One decoration of the lint `DecorationSet`: a range together with the
`diagnostic` stored on its spec (src/lint.ts lines 71-81).  A widget
decoration occupies the empty range `[aFrom, aFrom]`. -/
structure Anchor where
  aFrom : Nat
  aTo : Nat
  kind : AnchorKind
  diagnostic : Diagnostic
  deriving DecidableEq, Repr

/-- Model of `SelectedDiagnostic` (src/lint.ts lines 38-40). -/
structure SelectedDiagnostic where
  sFrom : Nat
  sTo : Nat
  diagnostic : Diagnostic
  deriving DecidableEq, Repr

/-- Model of `LintState` (src/lint.ts lines 42-46).  `panel` records presence of
the panel constructor (`null` versus `LintPanel.open`). -/
structure LintState where
  diagnostics : List Anchor
  panel : Bool
  selected : Option SelectedDiagnostic
  deriving DecidableEq, Repr

/-- View an anchor as the `SelectedDiagnostic` built from it
(src/lint.ts line 52). -/
def toSel (e : Anchor) : SelectedDiagnostic := ⟨e.aFrom, e.aTo, e.diagnostic⟩

/-- Model of `DecorationSet.length`: the end of the last range of the set
(substrate contract; used as the upper query bound on line 50). -/
def setLength (ds : List Anchor) : Nat := ds.foldr (fun e m => max e.aTo m) 0

/-- The in-order early-halting visit that `findDiagnostic` performs via
`diagnostics.between(after, diagnostics.length, ...)` (src/lint.ts
lines 48-56): entries overlapping `[after, len]` are visited in set
order; an entry is skipped when a reference diagnostic is given and the
entry's diagnostic is not it; the first remaining entry is returned and
the walk halts (`return false`). -/
def findDiagnosticGo (len : Nat) (diag : Option Diagnostic) (pos : Nat) :
    List Anchor → Option SelectedDiagnostic
  | [] => none
  | e :: rest =>
    if pos ≤ e.aTo ∧ e.aFrom ≤ len then
      match diag with
      | some d =>
        if e.diagnostic = d then some (toSel e) else findDiagnosticGo len diag pos rest
      | none => some (toSel e)
    else findDiagnosticGo len diag pos rest

/-- Model of `findDiagnostic` (src/lint.ts lines 48-56). -/
def findDiagnostic (ds : List Anchor) (diag : Option Diagnostic) (pos : Nat) :
    Option SelectedDiagnostic :=
  findDiagnosticGo (setLength ds) diag pos ds

/-- Document order on anchors: ascending `from`, ties broken by
ascending `to` (substrate contract, specification section 4.1). -/
def anchorLE (a b : Anchor) : Prop :=
  a.aFrom < b.aFrom ∨ (a.aFrom = b.aFrom ∧ a.aTo ≤ b.aTo)

instance : DecidableRel anchorLE := fun a b => by unfold anchorLE; infer_instance

instance : IsTotal Anchor anchorLE := ⟨by intro a b; unfold anchorLE; omega⟩

instance : IsTrans Anchor anchorLE := ⟨by intro a b c; unfold anchorLE; omega⟩

/-- Model of `Decoration.set`: the substrate stores decorations sorted in document
order. -/
def decoSet (l : List Anchor) : List Anchor := List.insertionSort anchorLE l

/-- The diagnostic-to-decoration construction rule (src/lint.ts
lines 71-81): `d.from < d.to` yields `Decoration.mark(d.from, d.to)`,
otherwise `Decoration.widget(d.from)`; both carry `d` on their spec. -/
def mkDeco (d : Diagnostic) : Anchor :=
  if d.fromPos < d.toPos then ⟨d.fromPos, d.toPos, AnchorKind.mark, d⟩
  else ⟨d.fromPos, d.fromPos, AnchorKind.widget, d⟩

/-- The `DecorationSet` built by the replace-diagnostics branch
(src/lint.ts lines 71-81). -/
def buildRanges (D : List Diagnostic) : List Anchor := decoSet (D.map mkDeco)

/-- The aspects of a transaction that `lintState.update` reads: the
`setDiagnostics` and `setState` annotations, the `docChanged` flag, the
change's position mapping `tr.changes.mapPos` and the induced
decoration-set mapping `set.map(tr.changes)` (both supplied by the
document substrate). -/
structure Transaction where
  setDiag : Option (List Diagnostic)
  setSt : Option LintState
  docChanged : Bool
  mapPos : Nat → Int → Nat
  mapSet : List Anchor → List Anchor

/-- Model of `lintState.update` (src/lint.ts lines 68-98). -/
def lintStateUpdate (value : LintState) (tr : Transaction) : LintState :=
  match tr.setDiag with
  | some setDiag =>
    let ranges := buildRanges setDiag
    ⟨ranges, value.panel, findDiagnostic ranges none 0⟩
  | none =>
    match tr.setSt with
    | some newState => newState
    | none =>
      if tr.docChanged then
        let mapped := tr.mapSet value.diagnostics
        let selected :=
          match value.selected with
          | none => none
          | some sel =>
            (findDiagnostic mapped (some sel.diagnostic) (tr.mapPos sel.sFrom 1)).orElse
              (fun _ => findDiagnostic mapped none (tr.mapPos sel.sFrom 1))
        ⟨mapped, value.panel, selected⟩
      else value

/-- The `setState` payload dispatched by `openLintPanel` (src/lint.ts
line 151). -/
def openPanelPayload (f : LintState) : LintState := ⟨f.diagnostics, true, f.selected⟩

/-- The `setState` payload dispatched by `closeLintPanel` (src/lint.ts
line 161). -/
def closePanelPayload (f : LintState) : LintState := ⟨f.diagnostics, false, f.selected⟩

/-- The `setState` payload dispatched by `LintPanel.moveSelection`
(src/lint.ts line 373), with `sel` the result of `findDiagnostic`. -/
def moveSelectionPayload (f : LintState) (sel : SelectedDiagnostic) : LintState :=
  ⟨f.diagnostics, f.panel, some sel⟩

/-- Model of `openLintPanel` (src/lint.ts lines 147-155): its return value paired
with the list of `setState` payloads it dispatches.  `field` is `none`
when the lint state field is not attached to the editor state. -/
def openLintPanel (field : Option LintState) : Bool × List LintState :=
  match field with
  | none => (false, [])
  | some f => (true, if f.panel then [] else [openPanelPayload f])

/-- Model of `closeLintPanel` (src/lint.ts lines 158-163). -/
def closeLintPanel (field : Option LintState) : Bool × List LintState :=
  match field with
  | none => (false, [])
  | some f => if f.panel then (true, [closePanelPayload f]) else (false, [])

/-- Model of `LintDelay` (src/lint.ts line 165). -/
def LintDelay : Nat := 500

/-- The scheduling state of `RunLintPlugin` (src/lint.ts lines 171-178):
the deadline `lintTime`, the `set` flag, and the absolute fire times of
the pending `setTimeout` callbacks (a list so that having at most one
pending timer is a provable property, not an assumption). -/
structure SchedState where
  lintTime : Nat
  set : Bool
  timers : List Nat
  deriving DecidableEq, Repr

/-- Construction of `RunLintPlugin` at time `now` (src/lint.ts
lines 172-178): deadline `now + LintDelay`, `set = true`, one timer
armed for `LintDelay`. -/
def schedInit (now : Nat) : SchedState :=
  ⟨now + LintDelay, true, [now + LintDelay]⟩

/-- Model of `RunLintPlugin.run` (src/lint.ts lines 181-190), entered when a timer
fires at absolute time `now`; the fired timer has already been removed
from `timers`.  Returns the next state and whether the diagnostic source
was invoked.  `setTimeout(this.run, this.lintTime - now)` arms a timer
that fires at `now + (lintTime - now)`. -/
def schedRun (s : SchedState) (now : Nat) : SchedState × Bool :=
  if now < s.lintTime - 10 then
    ({ s with timers := s.timers ++ [now + (s.lintTime - now)] }, false)
  else
    ({ s with set := false }, true)

/-- Model of `RunLintPlugin.update` (src/lint.ts lines 192-200) receiving a
`docChanged` view update at absolute time `now`. -/
def schedUpdate (s : SchedState) (now : Nat) : SchedState :=
  let s1 := { s with lintTime := now + LintDelay }
  if s1.set then s1 else { s1 with set := true, timers := s1.timers ++ [now + LintDelay] }

/-- One step of the single-threaded event loop driving the scheduler:
deliver the earliest pending event, an edit (document change) or a timer
fire, edits first on ties.  Returns the next state, the remaining edits,
and the invocation record `(time, deadline at that time)` when the
source was invoked; `none` when no event remains. -/
def simStep (s : SchedState) (edits : List Nat) :
    Option (SchedState × List Nat × Option (Nat × Nat)) :=
  match edits, s.timers.min? with
  | e :: es, some t =>
    if e ≤ t then some (schedUpdate s e, es, none)
    else
      let s1 := { s with timers := s.timers.erase t }
      let r := schedRun s1 t
      some (r.1, edits, if r.2 then some (t, s1.lintTime) else none)
  | e :: es, none => some (schedUpdate s e, es, none)
  | [], some t =>
    let s1 := { s with timers := s.timers.erase t }
    let r := schedRun s1 t
    some (r.1, [], if r.2 then some (t, s1.lintTime) else none)
  | [], none => none

/-- Run the event loop to completion (with fuel), collecting the source
invocation records in order. -/
def simSched : Nat → SchedState → List Nat → List (Nat × Nat)
  | 0, _, _ => []
  | fuel + 1, s, edits =>
    match simStep s edits with
    | none => []
    | some (s1, edits1, ev) => ev.toList ++ simSched fuel s1 edits1

/-- A displayed panel item (src/lint.ts lines 234-242): its identity
(the source tags items with an id string; modelled as a number) and the
diagnostic it renders. -/
structure PanelItem where
  ident : Nat
  diagnostic : Diagnostic
  deriving DecidableEq, Repr

/-- The inner forward search of the reconciler (src/lint.ts
lines 303-305): find the first item of the remaining previous tail whose
diagnostic is identical to `d`; return the skipped prefix, the found
item and the remainder. -/
def splitFirst (d : Diagnostic) : List PanelItem →
    Option (List PanelItem × PanelItem × List PanelItem)
  | [] => none
  | it :: rest =>
    if it.diagnostic = d then some ([], it, rest)
    else
      match splitFirst d rest with
      | some (pre, found, post) => some (it :: pre, found, post)
      | none => none

/-- The reconciliation walk of `LintPanel.update` (src/lint.ts
lines 299-324) as a pure function.  `prev` is the remaining
previous-item tail, `cur` the current diagnostics in position order and
`fresh` the supply of identities for newly created items.  A found item
is reused (the skipped prefix is spliced out); a missing diagnostic gets
a new item inserted at the cursor; the leftover tail is dropped
(`while (i < this.items.length) this.items.pop()`). -/
def reconcile (prev : List PanelItem) (cur : List Diagnostic) (fresh : Nat) :
    List PanelItem × Nat :=
  match cur with
  | [] => ([], fresh)
  | d :: ds =>
    match splitFirst d prev with
    | some (_, found, post) =>
      let r := reconcile post ds fresh
      (found :: r.1, r.2)
    | none =>
      let r := reconcile prev ds (fresh + 1)
      (⟨fresh, d⟩ :: r.1, r.2)

/-! ## Support lemmas about `findDiagnostic` and the built decoration set -/

/-- Every member's end position is bounded by the set length. -/
theorem mem_aTo_le_setLength (ds : List Anchor) (e : Anchor) (h : e ∈ ds) :
    e.aTo ≤ setLength ds := by
  induction ds with
  | nil => cases h
  | cons x xs ih =>
    rcases List.mem_cons.mp h with h1 | h1
    · subst h1; exact Nat.le_max_left _ _
    · exact Nat.le_trans (ih h1) (Nat.le_max_right _ _)

/-- A hit of the search is an entry of the searched set. -/
theorem findDiagnosticGo_mem (len : Nat) (diag : Option Diagnostic) (pos : Nat)
    (ds : List Anchor) (sel : SelectedDiagnostic)
    (h : findDiagnosticGo len diag pos ds = some sel) :
    ∃ e, e ∈ ds ∧ toSel e = sel := by
  induction ds with
  | nil => simp [findDiagnosticGo] at h
  | cons e rest ih =>
    cases diag with
    | none =>
      by_cases hc : pos ≤ e.aTo ∧ e.aFrom ≤ len
      · rw [findDiagnosticGo, if_pos hc] at h
        exact ⟨e, List.mem_cons_self e rest, Option.some_injective _ h⟩
      · rw [findDiagnosticGo, if_neg hc] at h
        obtain ⟨e1, he1, hs⟩ := ih h
        exact ⟨e1, List.mem_cons_of_mem _ he1, hs⟩
    | some d =>
      by_cases hc : pos ≤ e.aTo ∧ e.aFrom ≤ len
      · rw [findDiagnosticGo, if_pos hc] at h
        by_cases hd : e.diagnostic = d
        · rw [if_pos hd] at h
          exact ⟨e, List.mem_cons_self e rest, Option.some_injective _ h⟩
        · rw [if_neg hd] at h
          obtain ⟨e1, he1, hs⟩ := ih h
          exact ⟨e1, List.mem_cons_of_mem _ he1, hs⟩
      · rw [findDiagnosticGo, if_neg hc] at h
        obtain ⟨e1, he1, hs⟩ := ih h
        exact ⟨e1, List.mem_cons_of_mem _ he1, hs⟩

/-- A hit of `findDiagnostic` is an entry of the searched set. -/
theorem findDiagnostic_mem (ds : List Anchor) (diag : Option Diagnostic) (pos : Nat)
    (sel : SelectedDiagnostic) (h : findDiagnostic ds diag pos = some sel) :
    ∃ e, e ∈ ds ∧ toSel e = sel :=
  findDiagnosticGo_mem _ _ _ _ _ h

/-- The built decoration set holds exactly the decorations constructed
from the diagnostics. -/
theorem buildRanges_perm (D : List Diagnostic) :
    (buildRanges D).Perm (D.map mkDeco) :=
  List.perm_insertionSort anchorLE (D.map mkDeco)

/-- The built decoration set is sorted in document order. -/
theorem buildRanges_sorted (D : List Diagnostic) :
    List.Sorted anchorLE (buildRanges D) :=
  List.sorted_insertionSort anchorLE (D.map mkDeco)

/-- Every constructed decoration is a well-formed range. -/
theorem mkDeco_from_le_to (d : Diagnostic) : (mkDeco d).aFrom ≤ (mkDeco d).aTo := by
  unfold mkDeco
  by_cases h : d.fromPos < d.toPos
  · rw [if_pos h]; exact Nat.le_of_lt h
  · rw [if_neg h]

/-- Every entry of the built decoration set is a well-formed range. -/
theorem buildRanges_from_le_to (D : List Diagnostic) (e : Anchor)
    (h : e ∈ buildRanges D) : e.aFrom ≤ e.aTo := by
  have hm : e ∈ D.map mkDeco := (buildRanges_perm D).mem_iff.mp h
  obtain ⟨d, _, rfl⟩ := List.mem_map.mp hm
  exact mkDeco_from_le_to d

/-- On a set of well-formed ranges, the unrestricted search from
position 0 returns the first entry. -/
theorem findDiagnostic_none_zero (ds : List Anchor)
    (h : ∀ e ∈ ds, e.aFrom ≤ e.aTo) :
    findDiagnostic ds none 0 = ds.head?.map toSel := by
  cases ds with
  | nil => rfl
  | cons e rest =>
    have h2 : e.aFrom ≤ setLength (e :: rest) :=
      Nat.le_trans (h e (List.mem_cons_self e rest))
        (mem_aTo_le_setLength _ _ (List.mem_cons_self e rest))
    rw [findDiagnostic, findDiagnosticGo, if_pos ⟨Nat.zero_le _, h2⟩]
    rfl

/-- The identity-filtered search is a first-match scan. -/
theorem findDiagnosticGo_eq_find_some (len : Nat) (d : Diagnostic) (pos : Nat)
    (ds : List Anchor) :
    findDiagnosticGo len (some d) pos ds =
      (ds.find? (fun e =>
        decide (pos ≤ e.aTo) && decide (e.aFrom ≤ len) && decide (e.diagnostic = d))).map toSel := by
  induction ds with
  | nil => rfl
  | cons e rest ih =>
    by_cases h1 : pos ≤ e.aTo
    · by_cases h2 : e.aFrom ≤ len
      · by_cases h3 : e.diagnostic = d
        · rw [findDiagnosticGo, if_pos ⟨h1, h2⟩, if_pos h3]
          simp [List.find?, h1, h2, h3]
        · rw [findDiagnosticGo, if_pos ⟨h1, h2⟩, if_neg h3, ih]
          simp [List.find?, h1, h2, h3]
      · rw [findDiagnosticGo, if_neg (fun hc => h2 hc.2), ih]
        simp [List.find?, h2]
    · rw [findDiagnosticGo, if_neg (fun hc => h1 hc.1), ih]
      simp [List.find?, h1]

/-- The unfiltered search is a first-match scan. -/
theorem findDiagnosticGo_eq_find_none (len : Nat) (pos : Nat) (ds : List Anchor) :
    findDiagnosticGo len none pos ds =
      (ds.find? (fun e => decide (pos ≤ e.aTo) && decide (e.aFrom ≤ len))).map toSel := by
  induction ds with
  | nil => rfl
  | cons e rest ih =>
    by_cases h1 : pos ≤ e.aTo
    · by_cases h2 : e.aFrom ≤ len
      · rw [findDiagnosticGo, if_pos ⟨h1, h2⟩]
        simp [List.find?, h1, h2]
      · rw [findDiagnosticGo, if_neg (fun hc => h2 hc.2), ih]
        simp [List.find?, h2]
    · rw [findDiagnosticGo, if_neg (fun hc => h1 hc.1), ih]
      simp [List.find?, h1]

/-- The result of `find?` only depends on the predicate's values on the list. -/
theorem findCongr {α : Type} (p q : α → Bool) (l : List α)
    (h : ∀ a ∈ l, p a = q a) : l.find? p = l.find? q := by
  induction l with
  | nil => rfl
  | cons a as ih =>
    have ha := h a (List.mem_cons_self a as)
    by_cases hp : p a = true
    · simp [List.find?, hp, ha ▸ hp]
    · have hq : ¬(q a = true) := fun hq => hp (ha ▸ hq)
      simp only [List.find?]
      rw [Bool.of_not_eq_true hp, Bool.of_not_eq_true hq]
      exact ih (fun a ha1 => h a (List.mem_cons_of_mem _ ha1))

/-! ## Branch lemmas for the reducer -/

/-- The replace-diagnostics branch of the reducer. -/
theorem lintStateUpdate_setDiag (value : LintState) (D : List Diagnostic)
    (st : Option LintState) (dc : Bool) (mp : Nat → Int → Nat)
    (ms : List Anchor → List Anchor) :
    lintStateUpdate value ⟨some D, st, dc, mp, ms⟩ =
      ⟨buildRanges D, value.panel, findDiagnostic (buildRanges D) none 0⟩ := rfl

/-- The replace-state branch of the reducer. -/
theorem lintStateUpdate_setSt (value ns : LintState) (dc : Bool)
    (mp : Nat → Int → Nat) (ms : List Anchor → List Anchor) :
    lintStateUpdate value ⟨none, some ns, dc, mp, ms⟩ = ns := rfl

/-- The plain document-edit branch, prior selection present. -/
theorem lintStateUpdate_plain_some (value : LintState) (mp : Nat → Int → Nat)
    (ms : List Anchor → List Anchor) (sel : SelectedDiagnostic)
    (h : value.selected = some sel) :
    lintStateUpdate value ⟨none, none, true, mp, ms⟩ =
      ⟨ms value.diagnostics, value.panel,
        (findDiagnostic (ms value.diagnostics) (some sel.diagnostic) (mp sel.sFrom 1)).orElse
          (fun _ => findDiagnostic (ms value.diagnostics) none (mp sel.sFrom 1))⟩ := by
  obtain ⟨dsv, pv, selv⟩ := value
  obtain rfl : selv = some sel := h
  rfl

/-- The plain document-edit branch, no prior selection. -/
theorem lintStateUpdate_plain_none (value : LintState) (mp : Nat → Int → Nat)
    (ms : List Anchor → List Anchor) (h : value.selected = none) :
    lintStateUpdate value ⟨none, none, true, mp, ms⟩ =
      ⟨ms value.diagnostics, value.panel, none⟩ := by
  obtain ⟨dsv, pv, selv⟩ := value
  obtain rfl : selv = none := h
  rfl

/-! ## Concrete values used by the concrete-input theorems -/

/-- A span diagnostic over [10, 15). -/
def dSpan : Diagnostic := ⟨10, 15, Severity.error, none, "span", 0⟩

/-- A point diagnostic at 4. -/
def dPoint : Diagnostic := ⟨4, 4, Severity.warning, none, "point", 1⟩

/-- An out-of-range diagnostic for a document of length 10. -/
def dOut : Diagnostic := ⟨1000, 1001, Severity.error, none, "oob", 2⟩

/-- An inverted diagnostic (`from > to`). -/
def dBad : Diagnostic := ⟨5, 2, Severity.info, none, "bad", 3⟩

/-! ## C1 -/

/-- C1: a replace-diagnostics transaction keeps the prior `panel` and
selects the first anchor of the freshly built, document-ordered anchor
set (absent when the diagnostic list is empty), for every prior state,
so regardless of what was selected before; the built set is sorted in
document order and holds exactly the anchors constructed from the
supplied diagnostics. -/
theorem replace_selects_first_anchor (value : LintState) (D : List Diagnostic)
    (st : Option LintState) (dc : Bool) (mp : Nat → Int → Nat)
    (ms : List Anchor → List Anchor) :
    (lintStateUpdate value ⟨some D, st, dc, mp, ms⟩).panel = value.panel ∧
    (lintStateUpdate value ⟨some D, st, dc, mp, ms⟩).selected =
      (buildRanges D).head?.map toSel ∧
    List.Sorted anchorLE (buildRanges D) ∧
    (buildRanges D).Perm (D.map mkDeco) := by
  refine ⟨rfl, ?_, buildRanges_sorted D, buildRanges_perm D⟩
  show findDiagnostic (buildRanges D) none 0 = (buildRanges D).head?.map toSel
  exact findDiagnostic_none_zero _ (buildRanges_from_le_to D)

/-! ## C8 -/

/-- C8: a transaction with no `setDiagnostics` annotation, no `setState`
annotation and an unchanged document leaves the lint state untouched:
the reducer returns the prior value itself (the source's `return value`,
so referential identity is preserved). -/
theorem plain_transaction_returns_value (value : LintState)
    (mp : Nat → Int → Nat) (ms : List Anchor → List Anchor) :
    lintStateUpdate value ⟨none, none, false, mp, ms⟩ = value := rfl

/-! ## C10 -/

/-- C10: a transaction carrying a `setDiagnostics` annotation takes the
replace branch exclusively, whatever its `docChanged` flag, `setState`
annotation and change mappings: the result is built from the raw
diagnostic offsets (no remapping of old or new anchors is involved) and
coincides with the result for a transaction carrying nothing else. -/
theorem setDiagnostics_branch_exclusive (value : LintState) (D : List Diagnostic)
    (st : Option LintState) (dc : Bool) (mp : Nat → Int → Nat)
    (ms : List Anchor → List Anchor) :
    lintStateUpdate value ⟨some D, st, dc, mp, ms⟩ =
      ⟨buildRanges D, value.panel, findDiagnostic (buildRanges D) none 0⟩ ∧
    lintStateUpdate value ⟨some D, st, dc, mp, ms⟩ =
      lintStateUpdate value ⟨some D, none, false, fun p _ => p, id⟩ :=
  ⟨rfl, rfl⟩

/-! ## C9 -/

/-- C9: `openLintPanel` and `closeLintPanel` return false and dispatch
nothing when the lint field is absent; `closeLintPanel` also returns
false and dispatches nothing when the panel is closed; in every other
case each returns true. -/
theorem panel_commands_applicability :
    openLintPanel none = (false, []) ∧
    closeLintPanel none = (false, []) ∧
    (∀ (ds : List Anchor) (sel : Option SelectedDiagnostic),
      closeLintPanel (some ⟨ds, false, sel⟩) = (false, [])) ∧
    (∀ (ds : List Anchor) (sel : Option SelectedDiagnostic),
      openLintPanel (some ⟨ds, false, sel⟩) = (true, [⟨ds, true, sel⟩])) ∧
    (∀ (ds : List Anchor) (sel : Option SelectedDiagnostic),
      openLintPanel (some ⟨ds, true, sel⟩) = (true, [])) ∧
    (∀ (ds : List Anchor) (sel : Option SelectedDiagnostic),
      closeLintPanel (some ⟨ds, true, sel⟩) = (true, [⟨ds, false, sel⟩])) :=
  ⟨rfl, rfl, fun _ _ => rfl, fun _ _ => rfl, fun _ _ => rfl, fun _ _ => rfl⟩

/-! ## C5 -/

/-- C5: the replace branch turns every diagnostic with `from < to` into a
mark anchor over [from, to] and every diagnostic with `from = to` into a
widget anchor at `from`, each carrying the originating diagnostic; the
built set holds exactly these anchors. -/
theorem anchor_construction_rule (D : List Diagnostic) :
    (buildRanges D).Perm (D.map mkDeco) ∧
    ∀ d ∈ D,
      (d.fromPos < d.toPos →
        (⟨d.fromPos, d.toPos, AnchorKind.mark, d⟩ : Anchor) ∈ buildRanges D) ∧
      (d.fromPos = d.toPos →
        (⟨d.fromPos, d.fromPos, AnchorKind.widget, d⟩ : Anchor) ∈ buildRanges D) := by
  refine ⟨buildRanges_perm D, fun d hd => ⟨fun hlt => ?_, fun heq => ?_⟩⟩
  · have hm : mkDeco d = ⟨d.fromPos, d.toPos, AnchorKind.mark, d⟩ := by
      rw [mkDeco, if_pos hlt]
    exact (buildRanges_perm D).mem_iff.mpr (hm ▸ List.mem_map_of_mem mkDeco hd)
  · have hn : ¬ d.fromPos < d.toPos := by omega
    have hm : mkDeco d = ⟨d.fromPos, d.fromPos, AnchorKind.widget, d⟩ := by
      rw [mkDeco, if_neg hn]
    exact (buildRanges_perm D).mem_iff.mpr (hm ▸ List.mem_map_of_mem mkDeco hd)

/-- Witness for C5 at a concrete two-diagnostic batch. -/
theorem anchor_construction_rule_witness :
    (⟨10, 15, AnchorKind.mark, dSpan⟩ : Anchor) ∈ buildRanges [dSpan, dPoint] ∧
    (⟨4, 4, AnchorKind.widget, dPoint⟩ : Anchor) ∈ buildRanges [dSpan, dPoint] :=
  ⟨((anchor_construction_rule [dSpan, dPoint]).2 dSpan (by decide)).1 (by decide),
   ((anchor_construction_rule [dSpan, dPoint]).2 dPoint (by decide)).2 (by decide)⟩

/-! ## C7 -/

/-- C7 counterexample: the replace branch never clamps against the
document length.  For a document of length 10, the batch `[dOut]`
(range [1000, 1001]) is installed unchanged: the produced anchor's
bounds lie outside [0, 10], refuting the clamp the claim asserts. -/
theorem malformed_not_clamped_counterexample :
    buildRanges [dOut] = [⟨1000, 1001, AnchorKind.mark, dOut⟩] ∧
    ∃ e ∈ buildRanges [dOut], ¬ (e.aTo ≤ 10) := by
  refine ⟨by decide, ⟨1000, 1001, AnchorKind.mark, dOut⟩, by decide, by decide⟩

/-- C7 amended: a malformed diagnostic never fails the batch — every
diagnostic of the batch yields exactly one anchor, an inverted
diagnostic (`from > to`) is collapsed to a widget anchor at `from`, and
no anchor with `from > to` is ever produced; bounds are however not
checked against the document length. -/
theorem malformed_collapsed_not_clamped (D : List Diagnostic) :
    (buildRanges D).length = D.length ∧
    (∀ e ∈ buildRanges D, e.aFrom ≤ e.aTo) ∧
    (∀ d ∈ D, d.toPos < d.fromPos →
      (⟨d.fromPos, d.fromPos, AnchorKind.widget, d⟩ : Anchor) ∈ buildRanges D) := by
  refine ⟨?_, buildRanges_from_le_to D, fun d hd hlt => ?_⟩
  · rw [(buildRanges_perm D).length_eq, List.length_map]
  · have hn : ¬ d.fromPos < d.toPos := by omega
    have hm : mkDeco d = ⟨d.fromPos, d.fromPos, AnchorKind.widget, d⟩ := by
      rw [mkDeco, if_neg hn]
    exact (buildRanges_perm D).mem_iff.mpr (hm ▸ List.mem_map_of_mem mkDeco hd)

/-- Witness for the amended C7 on a batch with an inverted diagnostic. -/
theorem malformed_collapsed_not_clamped_witness :
    (buildRanges [dBad, dSpan]).length = 2 ∧
    (⟨5, 5, AnchorKind.widget, dBad⟩ : Anchor) ∈ buildRanges [dBad, dSpan] :=
  ⟨(malformed_collapsed_not_clamped [dBad, dSpan]).1,
   (malformed_collapsed_not_clamped [dBad, dSpan]).2.2 dBad (by decide) (by decide)⟩

/-! ## C2 -/

/-- The reselection policy as the specification words it (section 4.2,
case 3): the first anchor, in document order, lying at or after `pos`
(its range not entirely before `pos`) whose diagnostic is identical to
the previous selection's; else the first anchor at or after `pos`
regardless of identity; else none. -/
def specReselect (mapped : List Anchor) (d : Diagnostic) (pos : Nat) :
    Option SelectedDiagnostic :=
  match mapped.find? (fun e => decide (pos ≤ e.aTo) && decide (e.diagnostic = d)) with
  | some e => some (toSel e)
  | none => (mapped.find? (fun e => decide (pos ≤ e.aTo))).map toSel

/-- On a set of well-formed ranges, the reducer's fallback chain of
`findDiagnostic` calls computes exactly the spec's reselection policy. -/
theorem findDiagnostic_orElse_eq_specReselect (mapped : List Anchor)
    (d : Diagnostic) (pos : Nat) (h : ∀ e ∈ mapped, e.aFrom ≤ e.aTo) :
    (findDiagnostic mapped (some d) pos).orElse
      (fun _ => findDiagnostic mapped none pos) = specReselect mapped d pos := by
  have hmem : ∀ e ∈ mapped, (decide (e.aFrom ≤ setLength mapped)) = true := fun e he =>
    decide_eq_true (Nat.le_trans (h e he) (mem_aTo_le_setLength mapped e he))
  rw [findDiagnostic, findDiagnostic, findDiagnosticGo_eq_find_some,
    findDiagnosticGo_eq_find_none]
  rw [findCongr
    (fun e => decide (pos ≤ e.aTo) && decide (e.aFrom ≤ setLength mapped) &&
      decide (e.diagnostic = d))
    (fun e => decide (pos ≤ e.aTo) && decide (e.diagnostic = d)) mapped
    (fun e he => by simp only [hmem e he, Bool.and_true])]
  rw [findCongr
    (fun e => decide (pos ≤ e.aTo) && decide (e.aFrom ≤ setLength mapped))
    (fun e => decide (pos ≤ e.aTo)) mapped
    (fun e he => by simp only [hmem e he, Bool.and_true])]
  rw [specReselect]
  cases mapped.find? (fun e => decide (pos ≤ e.aTo) && decide (e.diagnostic = d)) with
  | none => rfl
  | some e => rfl

/-- A lint state with the span diagnostic installed and selected. -/
def exState : LintState :=
  ⟨[⟨10, 15, AnchorKind.mark, dSpan⟩], true, some ⟨10, 15, dSpan⟩⟩

/-- The change inserting 3 characters at position 0, as the substrate
contract maps it: a position at the insertion point stays put only under
backward bias, everything else shifts ahead by 3; every anchor of the
set shifts ahead by 3. -/
def insThreeAtZero : Transaction where
  setDiag := none
  setSt := none
  docChanged := true
  mapPos := fun pos bias => if pos = 0 ∧ bias ≤ 0 then 0 else pos + 3
  mapSet := fun ds => ds.map (fun e => ⟨e.aFrom + 3, e.aTo + 3, e.kind, e.diagnostic⟩)

/-- C2: on a plain document edit with a present selection, the selection
position is mapped with forward bias (`mapPos(sel.from, 1)`) and the new
selection follows the spec's chain — same-identity anchor at or after
the mapped position, else any anchor at or after it, else absent — while
the decoration set is the remapped one.  Concretely, inserting 3
characters at position 0 moves the selection [10, 15) to [13, 18) with
the same diagnostic identity. -/
theorem plain_edit_reselection (value : LintState) (tr : Transaction)
    (sel : SelectedDiagnostic)
    (h1 : tr.setDiag = none) (h2 : tr.setSt = none) (h3 : tr.docChanged = true)
    (h4 : value.selected = some sel)
    (h5 : ∀ e ∈ tr.mapSet value.diagnostics, e.aFrom ≤ e.aTo) :
    ((lintStateUpdate value tr).diagnostics = tr.mapSet value.diagnostics ∧
     (lintStateUpdate value tr).selected =
       specReselect (tr.mapSet value.diagnostics) sel.diagnostic
         (tr.mapPos sel.sFrom 1)) ∧
    lintStateUpdate exState insThreeAtZero =
      ⟨[⟨13, 18, AnchorKind.mark, dSpan⟩], true, some ⟨13, 18, dSpan⟩⟩ := by
  obtain ⟨sd, st, dc, mp, ms⟩ := tr
  obtain rfl : sd = none := h1
  obtain rfl : st = none := h2
  obtain rfl : dc = true := h3
  refine ⟨?_, by decide⟩
  rw [lintStateUpdate_plain_some value mp ms sel h4]
  exact ⟨rfl, findDiagnostic_orElse_eq_specReselect _ _ _ h5⟩

/-- Witness for C2 at the concrete insertion. -/
theorem plain_edit_reselection_witness :
    (lintStateUpdate exState insThreeAtZero).selected =
      specReselect (insThreeAtZero.mapSet exState.diagnostics) dSpan
        (insThreeAtZero.mapPos 10 1) :=
  ((plain_edit_reselection exState insThreeAtZero ⟨10, 15, dSpan⟩
      rfl rfl rfl rfl (by decide)).1).2

/-! ## C4 -/

/-- The selection-liveness invariant: a present selection resolves to a
live entry of the state's own decoration set. -/
def SelectedLive (s : LintState) : Prop :=
  ∀ sel, s.selected = some sel → ∃ e, e ∈ s.diagnostics ∧ toSel e = sel

/-- A transaction carrying nothing, with identity change mappings. -/
def trId : Transaction := ⟨none, none, false, fun p _ => p, fun ds => ds⟩

/-- C4: every transition of the reducer preserves selection liveness.
The `setState` annotation is private to the module; the only payloads
ever dispatched with it are the three below (src/lint.ts lines 151, 161
and 373), and each of them satisfies the invariant, so the blanket
hypothesis on `tr.setSt` covers every transaction the program can
build. -/
theorem reducer_preserves_selection_live :
    (∀ (value : LintState) (tr : Transaction),
        SelectedLive value →
        (∀ ns, tr.setSt = some ns → SelectedLive ns) →
        SelectedLive (lintStateUpdate value tr)) ∧
    (∀ f, SelectedLive f → SelectedLive (openPanelPayload f)) ∧
    (∀ f, SelectedLive f → SelectedLive (closePanelPayload f)) ∧
    (∀ (f : LintState) (d : Diagnostic) sel,
        findDiagnostic f.diagnostics (some d) 0 = some sel →
        SelectedLive (moveSelectionPayload f sel)) := by
  refine ⟨?_, ?_, ?_, ?_⟩
  · intro value tr hv hst
    obtain ⟨sd, st, dc, mp, ms⟩ := tr
    cases sd with
    | some D =>
      rw [lintStateUpdate_setDiag]
      intro sel hsel
      exact findDiagnostic_mem _ _ _ _ hsel
    | none =>
      cases st with
      | some ns =>
        rw [lintStateUpdate_setSt]
        exact hst ns rfl
      | none =>
        cases dc with
        | false => exact hv
        | true =>
          cases hsel0 : value.selected with
          | none =>
            rw [lintStateUpdate_plain_none value mp ms hsel0]
            intro sel hsel
            exact absurd hsel (by simp)
          | some sel0 =>
            rw [lintStateUpdate_plain_some value mp ms sel0 hsel0]
            intro sel hsel
            have h2 : (findDiagnostic (ms value.diagnostics) (some sel0.diagnostic)
                (mp sel0.sFrom 1)).orElse
                (fun _ => findDiagnostic (ms value.diagnostics) none
                  (mp sel0.sFrom 1)) = some sel := hsel
            cases hfd : findDiagnostic (ms value.diagnostics) (some sel0.diagnostic)
                (mp sel0.sFrom 1) with
            | some x =>
              rw [hfd] at h2
              simp only [Option.orElse] at h2
              obtain ⟨e, he, hx⟩ := findDiagnostic_mem _ _ _ _ hfd
              exact ⟨e, he, hx.trans (Option.some_injective _ h2)⟩
            | none =>
              rw [hfd] at h2
              simp only [Option.orElse] at h2
              exact findDiagnostic_mem _ _ _ _ h2
  · intro f hf sel hsel
    exact hf sel hsel
  · intro f hf sel hsel
    exact hf sel hsel
  · intro f d sel hfd sel1 hsel
    have h3 : some sel = some sel1 := hsel
    obtain rfl : sel = sel1 := Option.some_injective _ h3
    exact findDiagnostic_mem _ _ _ _ hfd

/-- Witness for C4: the invariant is preserved on a concrete empty state
and an annotation-free transaction. -/
theorem reducer_preserves_selection_live_witness :
    SelectedLive (lintStateUpdate ⟨[], false, none⟩ trId) ∧
    SelectedLive (openPanelPayload ⟨[], false, none⟩) ∧
    SelectedLive (moveSelectionPayload exState ⟨10, 15, dSpan⟩) :=
  ⟨reducer_preserves_selection_live.1 ⟨[], false, none⟩ trId
      (fun _ h => Option.noConfusion h) (fun _ h => Option.noConfusion h),
   reducer_preserves_selection_live.2.1 ⟨[], false, none⟩
      (fun _ h => Option.noConfusion h),
   reducer_preserves_selection_live.2.2.2 exState dSpan ⟨10, 15, dSpan⟩ (by decide)⟩

/-! ## C3 -/

/-- The scheduler's structural invariant: when `set` is true exactly one
timer is pending, when `set` is false none is. -/
def SchedInv (s : SchedState) : Prop :=
  (s.set = true ∧ s.timers.length = 1) ∨ (s.set = false ∧ s.timers = [])

/-- C3 counterexample: the timer callback can run at a time strictly
before the current deadline and still invoke the source, because the
code compares against `lintTime - 10`.  The trace is reachable:
constructing the plugin at t = 0 and editing at t = 5 moves the deadline
to 505, yet the timer armed at construction fires at t = 500 < 505 and
the source is invoked then, not re-armed. -/
theorem debounce_epsilon_counterexample :
    (schedRun ⟨505, true, []⟩ 500).2 = true ∧ (500 : Nat) < 505 ∧
    simSched 10 (schedInit 0) [5] = [(500, 505)] := by
  refine ⟨by decide, by omega, by decide⟩

/-- C3 amended: the callback invokes the source whenever it runs within
10 time units of the deadline or past it; only when it runs strictly
earlier than `deadline - 10` does it skip the invocation and re-arm one
timer for the remaining interval, firing at the deadline.  Bursts are
still coalesced: with edits at t = 0, 100 and 150 and delay 500 the
source is invoked exactly once, at t = 650; at most one timer is ever
pending (the invariant holds initially and is preserved by every event
of the loop). -/
theorem debounce_coalesces_with_epsilon :
    (∀ (s : SchedState) (now : Nat), now < s.lintTime - 10 →
        schedRun s now =
          ({ s with timers := s.timers ++ [now + (s.lintTime - now)] }, false) ∧
        now + (s.lintTime - now) = s.lintTime) ∧
    (∀ (s : SchedState) (now : Nat), ¬ now < s.lintTime - 10 →
        schedRun s now = ({ s with set := false }, true)) ∧
    simSched 10 (schedInit 0) [0, 100, 150] = [(650, 650)] ∧
    (∀ t, SchedInv (schedInit t)) ∧
    (∀ (s : SchedState) (edits : List Nat) s1 edits1 ev,
        SchedInv s → simStep s edits = some (s1, edits1, ev) → SchedInv s1) := by
  refine ⟨?_, ?_, by decide, ?_, ?_⟩
  · intro s now h
    exact ⟨by rw [schedRun, if_pos h], by omega⟩
  · intro s now h
    rw [schedRun, if_neg h]
  · intro t
    exact Or.inl ⟨rfl, rfl⟩
  · intro s edits s1 edits1 ev hinv hstep
    obtain ⟨lt, fl, tms⟩ := s
    rcases hinv with ⟨hset, hlen⟩ | ⟨hset, htms⟩
    · obtain rfl : fl = true := hset
      obtain ⟨t0, rfl⟩ : ∃ t0, tms = [t0] := List.length_eq_one.mp hlen
      cases edits with
      | nil =>
        by_cases hc : t0 < lt - 10
        · simp only [simStep, List.min?, List.foldl, List.erase, schedRun, if_pos hc,
            Option.some.injEq, Prod.mk.injEq] at hstep
          obtain ⟨rfl, -, -⟩ := hstep
          exact Or.inl ⟨rfl, by simp⟩
        · simp only [simStep, List.min?, List.foldl, List.erase, schedRun, if_neg hc,
            Option.some.injEq, Prod.mk.injEq] at hstep
          obtain ⟨rfl, -, -⟩ := hstep
          exact Or.inr ⟨rfl, by simp⟩
      | cons e es =>
        by_cases he : e ≤ t0
        · simp only [simStep, List.min?, List.foldl, if_pos he, schedUpdate,
            Option.some.injEq, Prod.mk.injEq] at hstep
          obtain ⟨rfl, -, -⟩ := hstep
          exact Or.inl ⟨rfl, rfl⟩
        · by_cases hc : t0 < lt - 10
          · simp only [simStep, List.min?, List.foldl, if_neg he, List.erase,
              schedRun, if_pos hc, Option.some.injEq, Prod.mk.injEq] at hstep
            obtain ⟨rfl, -, -⟩ := hstep
            exact Or.inl ⟨rfl, by simp⟩
          · simp only [simStep, List.min?, List.foldl, if_neg he, List.erase,
              schedRun, if_neg hc, Option.some.injEq, Prod.mk.injEq] at hstep
            obtain ⟨rfl, -, -⟩ := hstep
            exact Or.inr ⟨rfl, by simp⟩
    · obtain rfl : fl = false := hset
      obtain rfl : tms = [] := htms
      cases edits with
      | nil => exact absurd hstep (by simp [simStep, List.min?])
      | cons e es =>
        simp only [simStep, List.min?, schedUpdate, Option.some.injEq,
          Prod.mk.injEq] at hstep
        obtain ⟨rfl, -, -⟩ := hstep
        exact Or.inl ⟨rfl, rfl⟩

/-- Witness for the amended C3 at concrete scheduler states. -/
theorem debounce_coalesces_with_epsilon_witness :
    schedRun ⟨650, true, []⟩ 500 = (⟨650, true, [650]⟩, false) ∧
    schedRun ⟨505, true, []⟩ 500 = (⟨505, false, []⟩, true) ∧
    SchedInv ⟨505, true, [500]⟩ :=
  ⟨(debounce_coalesces_with_epsilon.1 ⟨650, true, []⟩ 500 (by decide)).1,
   debounce_coalesces_with_epsilon.2.1 ⟨505, true, []⟩ 500 (by decide),
   debounce_coalesces_with_epsilon.2.2.2.2 (schedInit 0) [5] ⟨505, true, [500]⟩ [] none
     (debounce_coalesces_with_epsilon.2.2.2.1 0) (by decide)⟩

/-! ## C6 -/

/-- The forward search splits the remaining tail around the first
identity match. -/
theorem splitFirst_eq_parts (d : Diagnostic) (l : List PanelItem) :
    ∀ pre found post, splitFirst d l = some (pre, found, post) →
      l = pre ++ found :: post ∧ found.diagnostic = d := by
  induction l with
  | nil => intro pre found post h; simp [splitFirst] at h
  | cons it rest ih =>
    intro pre found post h
    by_cases hd : it.diagnostic = d
    · rw [splitFirst, if_pos hd] at h
      simp only [Option.some.injEq, Prod.mk.injEq] at h
      obtain ⟨rfl, rfl, rfl⟩ := h
      exact ⟨rfl, hd⟩
    · rw [splitFirst, if_neg hd] at h
      cases hs : splitFirst d rest with
      | none => rw [hs] at h; cases h
      | some trip =>
        obtain ⟨p1, f1, q1⟩ := trip
        rw [hs] at h
        simp only [Option.some.injEq, Prod.mk.injEq] at h
        obtain ⟨rfl, rfl, rfl⟩ := h
        obtain ⟨hl, hd1⟩ := ih p1 f1 q1 hs
        exact ⟨by rw [List.cons_append, ← hl], hd1⟩

/-- The reconciled list displays exactly the current diagnostic sequence,
in order. -/
theorem reconcile_map_diagnostic (cur : List Diagnostic) :
    ∀ (prev : List PanelItem) (fresh : Nat),
      (reconcile prev cur fresh).1.map PanelItem.diagnostic = cur := by
  induction cur with
  | nil => intro prev fresh; rfl
  | cons d ds ih =>
    intro prev fresh
    cases hs : splitFirst d prev with
    | none =>
      simp only [reconcile, hs, List.map_cons]
      exact congrArg (fun l => d :: l) (ih prev (fresh + 1))
    | some trip =>
      obtain ⟨pre, found, post⟩ := trip
      have hd : found.diagnostic = d := (splitFirst_eq_parts d prev pre found post hs).2
      simp only [reconcile, hs, List.map_cons, hd]
      exact congrArg (fun l => d :: l) (ih post fresh)

/-- Every reconciled item is either reused from the previous list or
freshly created (identity at least `fresh`). -/
theorem reconcile_item_reused_or_new (cur : List Diagnostic) :
    ∀ (prev : List PanelItem) (fresh : Nat) (it : PanelItem),
      it ∈ (reconcile prev cur fresh).1 → it ∈ prev ∨ fresh ≤ it.ident := by
  induction cur with
  | nil => intro prev fresh it h; simp [reconcile] at h
  | cons d ds ih =>
    intro prev fresh it h
    cases hs : splitFirst d prev with
    | none =>
      simp only [reconcile, hs] at h
      rcases List.mem_cons.mp h with rfl | h1
      · right; exact Nat.le_refl _
      · rcases ih prev (fresh + 1) it h1 with h2 | h2
        · left; exact h2
        · right; omega
    | some trip =>
      obtain ⟨pre, found, post⟩ := trip
      have hp : prev = pre ++ found :: post :=
        (splitFirst_eq_parts d prev pre found post hs).1
      simp only [reconcile, hs] at h
      rcases List.mem_cons.mp h with rfl | h1
      · left
        rw [hp]
        exact List.mem_append_right _ (List.mem_cons_self _ _)
      · rcases ih post fresh it h1 with h2 | h2
        · left
          rw [hp]
          exact List.mem_append_right _ (List.mem_cons_of_mem _ h2)
        · right; exact h2

/-- Four concrete diagnostics for the reconciler example. -/
def dRecA : Diagnostic := ⟨0, 1, Severity.error, none, "a", 10⟩

/-- Second concrete diagnostic for the reconciler example. -/
def dRecB : Diagnostic := ⟨2, 3, Severity.error, none, "b", 11⟩

/-- Third concrete diagnostic for the reconciler example. -/
def dRecC : Diagnostic := ⟨4, 5, Severity.error, none, "c", 12⟩

/-- Fourth concrete diagnostic for the reconciler example. -/
def dRecD : Diagnostic := ⟨6, 7, Severity.error, none, "d", 13⟩

/-- C6: the reconciliation pass preserves order and identity — the output
renders exactly the current diagnostics in order, and every output item
is a reused previous item or a freshly created one.  On the concrete
previous list [A, B, C] with current order [A, C, D], exactly B is
dropped, A and C are the very same items (identities 0 and 2 kept, never
recreated), and a single new item is created for D. -/
theorem reconciler_single_pass (prev : List PanelItem) (cur : List Diagnostic)
    (fresh : Nat) :
    (reconcile prev cur fresh).1.map PanelItem.diagnostic = cur ∧
    (∀ it ∈ (reconcile prev cur fresh).1, it ∈ prev ∨ fresh ≤ it.ident) ∧
    reconcile [⟨0, dRecA⟩, ⟨1, dRecB⟩, ⟨2, dRecC⟩] [dRecA, dRecC, dRecD] 3 =
      ([⟨0, dRecA⟩, ⟨2, dRecC⟩, ⟨3, dRecD⟩], 4) :=
  ⟨reconcile_map_diagnostic cur prev fresh,
   fun it h => reconcile_item_reused_or_new cur prev fresh it h,
   by decide⟩

/-- Witness for C6: reuse of a previous item on a concrete run. -/
theorem reconciler_single_pass_witness :
    (⟨0, dRecA⟩ : PanelItem) ∈ [(⟨0, dRecA⟩ : PanelItem)] ∨
      (1 : Nat) ≤ (⟨0, dRecA⟩ : PanelItem).ident :=
  (reconciler_single_pass [⟨0, dRecA⟩] [dRecA] 1).2.1 ⟨0, dRecA⟩ (by decide)
